import Mathlib

/-!
Shallow embedding of `lib/sqlalchemy/engine/row.py` (pure-Python branch):
`BaseRow`, `Row`, `LegacyRow`, `RowMapping`, `ROMappingView` and the pickle
round-trip, together with the Python semantics of the tuple operations the
source delegates to (`tuple.__getitem__`, tuple slicing, lexicographic tuple
comparison, `in`, `hash`).

The row's metadata object (`self._parent`, a `ResultMetaData` from
`engine/result.py`) is not part of the sources; the fields of `Parent` below
model the collaborator contract the spec states for it.
-/

set_option autoImplicit false

namespace SqlRow

/-- A Python value stored in a row: `None`, an `int`, or a `str`.  Python
`==` between these kinds coincides with structural equality (cross-kind
comparison is `False`). -/
inductive Val where
  | vnull
  | vint (n : Int)
  | vstr (s : String)
  deriving DecidableEq, Repr

/-- A hashable lookup key: integer, string column name, or a column-identity
token (modelled by an id).  These are the key kinds the keymap dictionary of
the metadata can hold. -/
inductive LKey where
  | idx (i : Int)
  | name (s : String)
  | col (c : Nat)
  deriving DecidableEq, Repr

/-- A Python slice with default step 1: optional start and stop.
(`row.py` only ever forwards slices to tuple slicing; the model covers the
default-step form used by the spec's examples.) -/
structure PySlice where
  start : Option Int
  stop : Option Int
  deriving DecidableEq, Repr

/-- The runtime shape of a subscript argument: integer index, slice, string
name, or column-identity token. -/
inductive Key where
  | idx (i : Int)
  | slc (s : PySlice)
  | name (s : String)
  | col (c : Nat)
  deriving DecidableEq, Repr

/-- A resolution record of the keymap: `mdindex` is the concrete storage
position (`rec[MD_INDEX]`), or `none` — the ambiguous sentinel; `lookupKey`
is the literal key the record was built for, used when reporting an
ambiguous column. -/
structure Rec where
  mdindex : Option Nat
  lookupKey : LKey
  deriving DecidableEq, Repr

/-- Error conditions surfaced by the row code: Python `KeyError`
(`NoSuchColumnError`), the ambiguous-column `InvalidRequestError`,
`IndexError`, `TypeError` (non-integer subscript on a tuple), and
`AttributeError` (converted from `KeyError` by `__getattr__`). -/
inductive RowErr where
  | keyNotFound (k : LKey)
  | ambiguousColumn (k : LKey)
  | indexOutOfRange
  | typeError
  | attributeError (k : LKey)
  deriving DecidableEq, Repr

/-- Result of a subscript: a single value, or a tuple of values (slice). -/
inductive GetRes where
  | one (v : Val)
  | many (vs : List Val)
  deriving DecidableEq, Repr

instance instDecEqExcept {ε α : Type} [DecidableEq ε] [DecidableEq α] :
    DecidableEq (Except ε α) := fun x y =>
  match x, y with
  | .ok a, .ok b => if h : a = b then isTrue (by simp [h]) else isFalse (by simp [h])
  | .error e, .error f => if h : e = f then isTrue (by simp [h]) else isFalse (by simp [h])
  | .ok _, .error _ => isFalse (by simp)
  | .error _, .ok _ => isFalse (by simp)

/-- Python scalar `x < y` on row values: defined within one kind, a
`TypeError` (`none`) across kinds and for `None`. -/
def pyValLt : Val → Val → Option Bool
  | .vint m, .vint n => some (decide (m < n))
  | .vstr a, .vstr b => some (decide (a < b))
  | _, _ => none

/-- Python scalar `x <= y` on row values. -/
def pyValLe : Val → Val → Option Bool
  | .vint m, .vint n => some (decide (m ≤ n))
  | .vstr a, .vstr b => some (decide (a ≤ b))
  | _, _ => none

/-- Python scalar `x > y` on row values. -/
def pyValGt : Val → Val → Option Bool
  | .vint m, .vint n => some (decide (n < m))
  | .vstr a, .vstr b => some (decide (b < a))
  | _, _ => none

/-- Python scalar `x >= y` on row values. -/
def pyValGe : Val → Val → Option Bool
  | .vint m, .vint n => some (decide (n ≤ m))
  | .vstr a, .vstr b => some (decide (b ≤ a))
  | _, _ => none

/-- Python tuple `==`: equal length and pairwise equal elements. -/
def pyTupleEq : List Val → List Val → Bool
  | [], [] => true
  | x :: xs, y :: ys => decide (x = y) && pyTupleEq xs ys
  | _, _ => false

/-- Python tuple `<` (CPython tuple richcompare): skip the longest common
prefix of pairwise-equal elements, then compare the first differing pair
with scalar `<`; if one tuple is exhausted first, compare lengths. -/
def pyTupleLt : List Val → List Val → Option Bool
  | [], [] => some false
  | [], _ :: _ => some true
  | _ :: _, [] => some false
  | x :: xs, y :: ys => if x = y then pyTupleLt xs ys else pyValLt x y

/-- Python tuple `<=`, same scheme as `pyTupleLt`. -/
def pyTupleLe : List Val → List Val → Option Bool
  | [], _ => some true
  | _ :: _, [] => some false
  | x :: xs, y :: ys => if x = y then pyTupleLe xs ys else pyValLe x y

/-- Python tuple `>`, same scheme as `pyTupleLt`. -/
def pyTupleGt : List Val → List Val → Option Bool
  | [], _ => some false
  | _ :: _, [] => some true
  | x :: xs, y :: ys => if x = y then pyTupleGt xs ys else pyValGt x y

/-- Python tuple `>=`, same scheme as `pyTupleLt`. -/
def pyTupleGe : List Val → List Val → Option Bool
  | [], [] => some true
  | [], _ :: _ => some false
  | _ :: _, [] => some true
  | x :: xs, y :: ys => if x = y then pyTupleGe xs ys else pyValGe x y

/-- A deterministic stand-in for Python `hash` on one value. -/
def pyHashVal : Val → Int
  | .vnull => 0
  | .vint n => 3 + 2 * n
  | .vstr s => 7 + s.toList.foldl (fun acc c => acc * 31 + (c.toNat : Int)) 5381

/-- A deterministic stand-in for Python `hash` on a tuple of values: a fold
over the element hashes (what matters for the claims: it is a function of
the value sequence alone). -/
def pyHashTuple (xs : List Val) : Int :=
  xs.foldl (fun acc v => acc * 1000003 + pyHashVal v) 3430008

/-- Python tuple indexing `t[i]`: negative indices count from the end;
anything outside `[-len, len)` raises `IndexError`. -/
def pyTupleGet (xs : List Val) (i : Int) : Except RowErr Val :=
  let j := if i < 0 then i + xs.length else i
  if h : 0 ≤ j ∧ j < (xs.length : Int) then
    .ok (xs.get ⟨j.toNat, by omega⟩)
  else
    .error .indexOutOfRange

/-- Clamp one slice bound the way Python does for step 1: `none` means the
default, a negative bound counts from the end (clamped at 0), a nonnegative
bound is clamped at the length. -/
def sliceBound (n : Nat) (dflt : Nat) : Option Int → Nat
  | none => dflt
  | some i => if i < 0 then (i + n).toNat else min i.toNat n

/-- Python tuple slicing `t[a:b]` with the default step 1. -/
def pySliceGet (xs : List Val) (s : PySlice) : List Val :=
  let n := xs.length
  let a := sliceBound n 0 s.start
  let b := sliceBound n n s.stop
  (xs.drop a).take (b - a)

/-- Python dict lookup on the keymap, modelled as association-list search. -/
def findRec : List (LKey × Rec) → LKey → Option Rec
  | [], _ => none
  | (k, r) :: rest, key => if k = key then some r else findRec rest key

/-- The metadata object `self._parent` (`ResultMetaData`).  Modelled from the
spec: the class lives in `engine/result.py`, outside the sources; the spec's
metadata collaborator contract is `keys() -> ordered sequence of optional
names`, a key map, `keyFallback(key) -> resolution record or NotFound`, and
`hasKey(key) -> bool` (authoritative key-containment predicate). -/
structure Parent where
  keys : List (Option String)
  keymap : List (LKey × Rec)
  keyFallback : LKey → Option Rec
  hasKey : LKey → Bool

/-- `BaseRow`: the storage slots `_parent`, `_data`, `_keymap`. -/
structure BaseRow where
  _parent : Parent
  _data : List Val
  _keymap : List (LKey × Rec)

/-- `BaseRow.__init__`: store the parent and keymap, and build `_data` as
`tuple(proc(value) if proc else value for proc, value in zip(processors,
data))` — note Python `zip` stops at the shorter of the two sequences. -/
def BaseRow.init (parent : Parent) (processors : List (Option (Val → Val)))
    (keymap : List (LKey × Rec)) (data : List Val) : BaseRow :=
  { _parent := parent
    _data := (processors.zip data).map fun pv =>
      match pv with
      | (some proc, value) => proc value
      | (none, value) => value
    _keymap := keymap }

/-- `BaseRow.__len__`. -/
def BaseRow.lengthRow (r : BaseRow) : Nat := r._data.length

/-- `BaseRow.__hash__`: `hash(self._data)`. -/
def BaseRow.hashRow (r : BaseRow) : Int := pyHashTuple r._data

/-- `BaseRow._values_impl`: `list(self)`, i.e. the stored values in order. -/
def BaseRow.valuesImpl (r : BaseRow) : List Val := r._data

/-- `isinstance(key, int)` for a hashable lookup key. -/
def LKey.isInt : LKey → Bool
  | .idx _ => true
  | _ => false

/-- Python `mdindex != key` where `mdindex` is an `int` position: an `int`
never equals a string or a column object, so for those keys the test is
always true. -/
def mdindexNeKey (p : Nat) : LKey → Bool
  | .idx i => decide (i ≠ (p : Int))
  | _ => true

/-- The hashable keys, i.e. every `Key` except a slice (which is unhashable
and makes the keymap lookup raise `TypeError` in the source). -/
def Key.toLKey : Key → Option LKey
  | .idx i => some (.idx i)
  | .name s => some (.name s)
  | .col c => some (.col c)
  | .slc _ => none

/-- `self._keymap[key]` with the `KeyError` fallback
`self._parent._key_fallback(key)` (the fallback itself may fail, which the
model renders as `none`). -/
def BaseRow.lookupRec (r : BaseRow) (lk : LKey) : Option Rec :=
  match findRec r._keymap lk with
  | some rec => some rec
  | none => r._parent.keyFallback lk

/-- The non-slice path of `BaseRow._subscript_impl`: resolve the record;
`mdindex is None` raises the ambiguous-column error carrying the record's
literal key (`_raise_for_ambiguous_column_name`, modelled from the spec:
"raiseAmbiguous(record) (always fails)", identifying the offending key);
otherwise fetch `self._data[mdindex]` and report whether
`_warn_for_nonint(key)` fired (`not ismapping and mdindex != key and not
isinstance(key, int)`). -/
def BaseRow.subscriptHashable (r : BaseRow) (lk : LKey) (ismapping : Bool) :
    Except RowErr (GetRes × Bool) :=
  match r.lookupRec lk with
  | none => .error (.keyNotFound lk)
  | some rec =>
    match rec.mdindex with
    | none => .error (.ambiguousColumn rec.lookupKey)
    | some p =>
      match pyTupleGet r._data (p : Int) with
      | .error e => .error e
      | .ok v => .ok (.one v, !ismapping && mdindexNeKey p lk && !lk.isInt)

/-- `BaseRow._subscript_impl(key, ismapping)`: a slice bypasses the keymap
(the `TypeError` branch of the source) and returns `tuple(self._data[key])`;
hashable keys go through the keymap/fallback resolution.  The `Bool`
component records whether the non-fatal compatibility warning fired. -/
def BaseRow.subscriptImpl (r : BaseRow) (key : Key) (ismapping : Bool) :
    Except RowErr (GetRes × Bool) :=
  match key with
  | .slc s => .ok (.many (pySliceGet r._data s), false)
  | .idx i => r.subscriptHashable (.idx i) ismapping
  | .name s => r.subscriptHashable (.name s) ismapping
  | .col c => r.subscriptHashable (.col c) ismapping

/-- `BaseRow._get_by_key_impl`: non-mapping context. -/
def BaseRow.getByKeyImpl (r : BaseRow) (key : Key) : Except RowErr (GetRes × Bool) :=
  r.subscriptImpl key false

/-- `BaseRow._get_by_key_impl_mapping`: mapping context. -/
def BaseRow.getByKeyImplMapping (r : BaseRow) (key : Key) : Except RowErr (GetRes × Bool) :=
  r.subscriptImpl key true

/-- `BaseRow.__getattr__(name)`: mapping-context lookup of the name, with
`KeyError` converted to `AttributeError` (other failures propagate). -/
def BaseRow.getattr (r : BaseRow) (nm : String) : Except RowErr (GetRes × Bool) :=
  match r.subscriptImpl (.name nm) true with
  | .error (.keyNotFound k) => .error (.attributeError k)
  | res => res

/-- The key a stored value turns into when Python uses it for a dict probe:
an `int` value probes the integer key, a `str` value the name key. -/
def Val.toLKey : Val → Option LKey
  | .vint n => some (.idx n)
  | .vstr s => some (.name s)
  | .vnull => none

/-- `Parent._has_key` applied to an arbitrary value used as a key. -/
def Parent.hasKeyVal (p : Parent) (v : Val) : Bool :=
  match v.toLKey with
  | some k => p.hasKey k
  | none => false

/-- Modelled from the spec: `ResultMetaData._contains(value, row)`, the
metadata reference's combined value/key containment predicate ("legacy
value-or-key test"); the metadata class is in `engine/result.py`, outside
the sources. -/
def Parent.containsValOrKey (p : Parent) (v : Val) (r : BaseRow) : Bool :=
  r._data.contains v || p.hasKeyVal v

/-- `Row.__contains__`: `key in self._data`, a value-membership test. -/
def Row.containsStrict (r : BaseRow) (v : Val) : Bool :=
  r._data.contains v

/-- `Row.__getitem__`: `self._data[key]` — plain Python tuple subscription:
integers index (negative from the end), slices slice, anything else is a
`TypeError`; a name is never resolved. -/
def Row.getitem (r : BaseRow) : Key → Except RowErr GetRes
  | .idx i => (pyTupleGet r._data i).map .one
  | .slc s => .ok (.many (pySliceGet r._data s))
  | .name _ => .error .typeError
  | .col _ => .error .typeError

/-- The pickled state of a row: `Row.__getstate__` returns
`{"_parent": self._parent, "_data": self._data}`. -/
structure RowState where
  _parent : Parent
  _data : List Val

/-- `Row.__getstate__`. -/
def Row.getstate (r : BaseRow) : RowState :=
  { _parent := r._parent, _data := r._data }

/-- `Row.__setstate__` on a fresh object: restore `_parent` and `_data`, and
take `_keymap` from the parent. -/
def Row.setstate (st : RowState) : BaseRow :=
  { _parent := st._parent, _data := st._data, _keymap := st._parent.keymap }

/-- `rowproxy_reconstructor(cls, state)`: `cls.__new__(cls)` followed by
`__setstate__(state)` — the reconstruction entry point named by
`BaseRow.__reduce__`. -/
def rowproxy_reconstructor (st : RowState) : BaseRow :=
  Row.setstate st

/-- The right operand of a row comparison: another `Row`, or a plain ordered
sequence (a Python tuple of values). -/
def tupleOfOther : BaseRow ⊕ List Val → List Val
  | .inl r2 => r2._data
  | .inr t => t

/-- `Row._op(other, operator.eq)`: `op(tuple(self), tuple(other))` when the
other side is a `Row`, else `op(tuple(self), other)`. -/
def Row.opEq (r : BaseRow) (o : BaseRow ⊕ List Val) : Bool :=
  pyTupleEq r._data (tupleOfOther o)

/-- `Row.__ne__` via `Row._op` with `operator.ne`. -/
def Row.opNe (r : BaseRow) (o : BaseRow ⊕ List Val) : Bool :=
  !pyTupleEq r._data (tupleOfOther o)

/-- `Row.__lt__` via `Row._op` with `operator.lt`. -/
def Row.opLt (r : BaseRow) (o : BaseRow ⊕ List Val) : Option Bool :=
  pyTupleLt r._data (tupleOfOther o)

/-- `Row.__le__` via `Row._op` with `operator.le`. -/
def Row.opLe (r : BaseRow) (o : BaseRow ⊕ List Val) : Option Bool :=
  pyTupleLe r._data (tupleOfOther o)

/-- `Row.__gt__` via `Row._op` with `operator.gt`. -/
def Row.opGt (r : BaseRow) (o : BaseRow ⊕ List Val) : Option Bool :=
  pyTupleGt r._data (tupleOfOther o)

/-- `Row.__ge__` via `Row._op` with `operator.ge`. -/
def Row.opGe (r : BaseRow) (o : BaseRow ⊕ List Val) : Option Bool :=
  pyTupleGe r._data (tupleOfOther o)

/-- `LegacyRow.__contains__`: `self._parent._contains(key, self)`. -/
def LegacyRow.containsCompat (r : BaseRow) (v : Val) : Bool :=
  r._parent.containsValOrKey v r

/-- `LegacyRow.__getitem__`: `self._get_by_key_impl(key)` — full resolution
in non-mapping context. -/
def LegacyRow.getitem (r : BaseRow) (key : Key) : Except RowErr (GetRes × Bool) :=
  r.getByKeyImpl key

/-- `RowMapping`: the read-only facade holding one row. -/
structure RowMapping where
  row : BaseRow

/-- `Row._mapping`. -/
def Row.mapping (r : BaseRow) : RowMapping := ⟨r⟩

/-- `RowMapping.__getitem__`: `self.row._get_by_key_impl_mapping(key)`. -/
def RowMapping.getitem (m : RowMapping) (key : Key) : Except RowErr (GetRes × Bool) :=
  m.row.getByKeyImplMapping key

/-- `RowMapping.__iter__`: `(k for k in self.row._parent.keys if k is not
None)` — only the non-null column names, in storage order. -/
def RowMapping.iterNames (m : RowMapping) : List String :=
  m.row._parent.keys.filterMap id

/-- `RowMapping.__len__`: `len(self.row)` — the row's storage length. -/
def RowMapping.lengthMap (m : RowMapping) : Nat :=
  m.row._data.length

/-- `RowMapping.__contains__`: `self.row._parent._has_key(key)`. -/
def RowMapping.containsKey (m : RowMapping) (k : LKey) : Bool :=
  m.row._parent.hasKey k

/-- `ROMappingView`: a materialized view holding the owning mapping and the
concrete item list computed at call time. -/
structure ROMappingView (α : Type) where
  _mapping : RowMapping
  _items : List α

/-- `ROMappingView.__eq__`: `list(other) == list(self)` — order-sensitive
list comparison against any iterable. -/
def ROMappingView.eqList {α : Type} [DecidableEq α] (v : ROMappingView α)
    (other : List α) : Bool :=
  decide (other = v._items)

/-- `ROMappingView.__ne__`: `list(other) != list(self)`. -/
def ROMappingView.neList {α : Type} [DecidableEq α] (v : ROMappingView α)
    (other : List α) : Bool :=
  decide (other ≠ v._items)

/-- `ROMappingView.__eq__` when the other iterable is itself a view:
iterating it yields its materialized items. -/
def ROMappingView.eqView {α : Type} [DecidableEq α] (v w : ROMappingView α) : Bool :=
  v.eqList w._items

/-- `RowMapping.keys()`: the view over `[k for k in self.row._parent.keys if
k is not None]`. -/
def RowMapping.keysView (m : RowMapping) : ROMappingView String :=
  ⟨m, m.row._parent.keys.filterMap id⟩

/-- `RowMapping.values()`: the view over `self.row._values_impl()`. -/
def RowMapping.valuesView (m : RowMapping) : ROMappingView Val :=
  ⟨m, m.row.valuesImpl⟩

/-- The spec's lexicographic-order predicate on value sequences, stated in
the spec's own words: "first differing position decides" (a common prefix,
then a differing pair whose left element is smaller), or "shorter sequence
is less if it is a strict prefix". -/
def lexLt (xs ys : List Val) : Prop :=
  (∃ p x y xs2 ys2, xs = p ++ x :: xs2 ∧ ys = p ++ y :: ys2 ∧ x ≠ y ∧
    pyValLt x y = some true) ∨
  (xs.length < ys.length ∧ ys.take xs.length = xs)

/-- A concrete keymap for a three-column result with names `a`, `b`, `c`. -/
def exKeymap : List (LKey × Rec) :=
  [(.name "a", ⟨some 0, .name "a"⟩), (.name "b", ⟨some 1, .name "b"⟩),
   (.name "c", ⟨some 2, .name "c"⟩), (.idx 0, ⟨some 0, .idx 0⟩),
   (.idx 1, ⟨some 1, .idx 1⟩), (.idx 2, ⟨some 2, .idx 2⟩)]

/-- A concrete metadata object for the `a`, `b`, `c` result. -/
def exParent : Parent :=
  { keys := [some "a", some "b", some "c"]
    keymap := exKeymap
    keyFallback := fun _ => none
    hasKey := fun k => (findRec exKeymap k).isSome }

/-- The spec's example row: values `(1, 2, 3)` under keys `a`, `b`, `c`. -/
def exRow : BaseRow :=
  { _parent := exParent, _data := [.vint 1, .vint 2, .vint 3], _keymap := exKeymap }

/-- A two-value row `(1, 2)` sharing the same metadata. -/
def exRow12 : BaseRow :=
  { _parent := exParent, _data := [.vint 1, .vint 2], _keymap := exKeymap }

/-- A keymap whose name `dup` resolves to the ambiguous sentinel. -/
def exKeymapDup : List (LKey × Rec) :=
  [(.name "dup", ⟨none, .name "dup"⟩), (.idx 0, ⟨some 0, .idx 0⟩),
   (.idx 1, ⟨some 1, .idx 1⟩)]

/-- Metadata with two columns both named `dup`. -/
def exParentDup : Parent :=
  { keys := [some "dup", some "dup"]
    keymap := exKeymapDup
    keyFallback := fun _ => none
    hasKey := fun k => (findRec exKeymapDup k).isSome }

/-- A row over the duplicate-name metadata. -/
def exRowDup : BaseRow :=
  { _parent := exParentDup, _data := [.vint 10, .vint 20], _keymap := exKeymapDup }

/-- A keymap for a result whose middle column is unlabeled. -/
def exKeymapU : List (LKey × Rec) :=
  [(.name "a", ⟨some 0, .name "a"⟩), (.name "c", ⟨some 2, .name "c"⟩),
   (.idx 0, ⟨some 0, .idx 0⟩), (.idx 1, ⟨some 1, .idx 1⟩),
   (.idx 2, ⟨some 2, .idx 2⟩)]

/-- Metadata whose middle column name is `None` (unlabeled). -/
def exParentU : Parent :=
  { keys := [some "a", none, some "c"]
    keymap := exKeymapU
    keyFallback := fun _ => none
    hasKey := fun k => (findRec exKeymapU k).isSome }

/-- A row over the unlabeled-column metadata, with the same values as
`exRow` but a different metadata object. -/
def exRowU : BaseRow :=
  { _parent := exParentU, _data := [.vint 1, .vint 2, .vint 3], _keymap := exKeymapU }

/-- Dispatching a hashable key through `_subscript_impl` lands in the
keymap-resolution path. -/
theorem subscriptImpl_eq_hashable (r : BaseRow) (k : Key) (lk : LKey) (m : Bool)
    (hk : k.toLKey = some lk) : r.subscriptImpl k m = r.subscriptHashable lk m := by
  cases k <;> simp_all [Key.toLKey, BaseRow.subscriptImpl]

/-- Tuple indexing with an in-range nonnegative position. -/
theorem pyTupleGet_nat (xs : List Val) (p : Nat) (hp : p < xs.length) :
    pyTupleGet xs (p : Int) = .ok (xs.get ⟨p, hp⟩) := by
  have h0 : ¬ ((p : Int) < 0) := by omega
  have h1 : 0 ≤ (p : Int) ∧ (p : Int) < (xs.length : Int) := by omega
  simp only [pyTupleGet, if_neg h0]
  rw [dif_pos h1]
  congr 1

/-- C1: serialization round-trip — reconstructing a row from its pickled
(metadata-reference, stored-values) state via `__getstate__` /
`rowproxy_reconstructor` / `__setstate__` yields a row whose value sequence,
mapping keys, and hash all equal the original's. -/
theorem serialize_reconstruct_roundtrip (r : BaseRow) :
    (rowproxy_reconstructor (Row.getstate r))._data = r._data ∧
    (RowMapping.keysView ⟨rowproxy_reconstructor (Row.getstate r)⟩)._items =
      (RowMapping.keysView ⟨r⟩)._items ∧
    (rowproxy_reconstructor (Row.getstate r)).hashRow = r.hashRow :=
  ⟨rfl, rfl, rfl⟩

/-- C2: containment divergence — the strict view's `in` is a value-membership
test on the stored values, the legacy view's `in` delegates to the metadata
reference's combined value-or-key containment predicate; hence a key string
bound to a column but not stored as a value is not contained in the strict
view but is contained in the legacy view. -/
theorem contains_strict_vs_legacy (r : BaseRow) (v : Val) (s : String) :
    (Row.containsStrict r v = true ↔ v ∈ r._data) ∧
    (LegacyRow.containsCompat r v = (r._data.contains v || r._parent.hasKeyVal v)) ∧
    (r._parent.hasKey (.name s) = true → Val.vstr s ∉ r._data →
      Row.containsStrict r (.vstr s) = false ∧
      LegacyRow.containsCompat r (.vstr s) = true) := by
  refine ⟨by simp [Row.containsStrict], rfl, fun h1 h2 => ⟨?_, ?_⟩⟩
  · simp [Row.containsStrict, h2]
  · simp [LegacyRow.containsCompat, Parent.containsValOrKey, Parent.hasKeyVal,
      Val.toLKey, h1]

theorem contains_strict_vs_legacy_witness :
    Row.containsStrict exRow (.vstr "a") = false ∧
    LegacyRow.containsCompat exRow (.vstr "a") = true :=
  (contains_strict_vs_legacy exRow (.vstr "a") "a").2.2 (by decide) (by decide)

/-- C8 (amended): construction does not fail on mismatched input lengths —
`zip(processors, data)` silently truncates, so the constructed row's storage
length is always the minimum of the two input lengths. -/
theorem init_length_is_min (p : Parent) (procs : List (Option (Val → Val)))
    (km : List (LKey × Rec)) (data : List Val) :
    (BaseRow.init p procs km data)._data.length = min procs.length data.length := by
  simp [BaseRow.init]

/-- C8 (counterexample): with one converter and two raw values, construction
does not fail; it produces a row whose storage length is the shorter of the
two input lengths. -/
theorem init_truncates_counterexample :
    (BaseRow.init exParent [none] exKeymap [.vint 5, .vint 6])._data = [.vint 5] ∧
    ([none] : List (Option (Val → Val))).length = 1 ∧
    [Val.vint 5, Val.vint 6].length = 2 :=
  ⟨by decide, rfl, rfl⟩

/-- C3: a keyed lookup whose resolution record carries the ambiguous
sentinel position fails with the ambiguous-column condition identifying the
record's key, in both contexts; it never returns a value. -/
theorem ambiguous_key_raises (r : BaseRow) (k : Key) (lk : LKey) (rc : Rec) (m : Bool)
    (hk : k.toLKey = some lk) (hl : r.lookupRec lk = some rc) (ha : rc.mdindex = none) :
    r.subscriptImpl k m = .error (.ambiguousColumn rc.lookupKey) ∧
    ∀ res : GetRes × Bool, r.subscriptImpl k m ≠ .ok res := by
  have he := subscriptImpl_eq_hashable r k lk m hk
  rw [he]
  unfold BaseRow.subscriptHashable
  rw [hl]
  dsimp only
  rw [ha]
  exact ⟨rfl, fun res h => by simp at h⟩

theorem ambiguous_key_raises_witness :
    exRowDup.subscriptImpl (.name "dup") true =
      .error (.ambiguousColumn (.name "dup")) :=
  (ambiguous_key_raises exRowDup (.name "dup") (.name "dup") ⟨none, .name "dup"⟩ true
    (by decide) (by decide) rfl).1

/-- Filtering the `none` entries out of a list that has one strictly
shortens it. -/
theorem length_filterMap_id_lt {α : Type} (l : List (Option α)) (h : none ∈ l) :
    (l.filterMap id).length < l.length := by
  induction l with
  | nil => simp at h
  | cons a t ih =>
    have hle : (t.filterMap id).length ≤ t.length := List.length_filterMap_le id t
    cases a with
    | none =>
      have hc : List.filterMap id (none :: t) = t.filterMap id := by simp
      rw [hc, List.length_cons]
      omega
    | some x =>
      have ht : none ∈ t := by simpa using h
      have hlt := ih ht
      have hc : List.filterMap id (some x :: t) = x :: t.filterMap id := by simp
      rw [hc, List.length_cons, List.length_cons]
      omega

/-- C4: the mapping view's length is the row's full storage length, while
its iteration and `keys()` yield only the non-null column names in storage
order; when the metadata names one position per storage slot and some
position is unlabeled, the length strictly exceeds the number of iterated
keys. -/
theorem mapping_len_iter_quirk (m : RowMapping) :
    RowMapping.lengthMap m = m.row._data.length ∧
    RowMapping.iterNames m = m.row._parent.keys.filterMap id ∧
    (RowMapping.keysView m)._items = RowMapping.iterNames m ∧
    (m.row._parent.keys.length = m.row._data.length → none ∈ m.row._parent.keys →
      (RowMapping.keysView m)._items.length < RowMapping.lengthMap m) := by
  refine ⟨rfl, rfl, rfl, fun h1 h2 => ?_⟩
  have := length_filterMap_id_lt m.row._parent.keys h2
  simpa [RowMapping.keysView, RowMapping.lengthMap, h1] using this

theorem mapping_len_iter_quirk_witness :
    (RowMapping.keysView ⟨exRowU⟩)._items.length < RowMapping.lengthMap ⟨exRowU⟩ :=
  (mapping_len_iter_quirk ⟨exRowU⟩).2.2.2 (by decide) (by decide)

/-- C6: view-collection equality is order-sensitive list comparison against
any iterable (and against another view); iterables with the same element
set in a different order are unequal. -/
theorem view_eq_order_sensitive {α : Type} [DecidableEq α] (v : ROMappingView α)
    (other : List α) (w : ROMappingView α) :
    (v.eqList other = true ↔ other = v._items) ∧
    (v.neList other = true ↔ other ≠ v._items) ∧
    (v.eqView w = true ↔ w._items = v._items) ∧
    (other.Perm v._items → other ≠ v._items → v.eqList other = false) := by
  refine ⟨by simp [ROMappingView.eqList], by simp [ROMappingView.neList],
    by simp [ROMappingView.eqView, ROMappingView.eqList], fun hp hne => ?_⟩
  simp [ROMappingView.eqList, hne]

theorem view_eq_order_sensitive_witness :
    (RowMapping.keysView ⟨exRow⟩).eqList ["a", "b", "c"] = true ∧
    (RowMapping.keysView ⟨exRow⟩).eqList ["c", "b", "a"] = false :=
  ⟨(view_eq_order_sensitive (RowMapping.keysView ⟨exRow⟩) ["a", "b", "c"]
      (RowMapping.keysView ⟨exRow⟩)).1.mpr (by decide),
    (view_eq_order_sensitive (RowMapping.keysView ⟨exRow⟩) ["c", "b", "a"]
      (RowMapping.keysView ⟨exRow⟩)).2.2.2 (by decide) (by decide)⟩

/-- C7: in non-mapping context, a lookup that resolves to a concrete
position returns the stored value there, and the compatibility warning
fires exactly when the resolved position differs from the supplied key
(Python `mdindex != key`) and the supplied key is not an integer; the value
returned is the same as in the warning-free mapping context. -/
theorem nonint_key_warning (r : BaseRow) (k : Key) (lk : LKey) (rc : Rec) (p : Nat)
    (hk : k.toLKey = some lk) (hl : r.lookupRec lk = some rc) (hm : rc.mdindex = some p)
    (hp : p < r._data.length) :
    r.subscriptImpl k false =
      .ok (.one (r._data.get ⟨p, hp⟩), mdindexNeKey p lk && !lk.isInt) ∧
    (r.subscriptImpl k false).map Prod.fst = (r.subscriptImpl k true).map Prod.fst := by
  rw [subscriptImpl_eq_hashable r k lk false hk, subscriptImpl_eq_hashable r k lk true hk]
  unfold BaseRow.subscriptHashable
  rw [hl]
  dsimp only
  rw [hm]
  dsimp only
  rw [pyTupleGet_nat r._data p hp]
  simp [Except.map]

theorem nonint_key_warning_witness :
    exRow.subscriptImpl (.name "b") false = .ok (.one (.vint 2), true) := by
  have h := (nonint_key_warning exRow (.name "b") (.name "b") ⟨some 1, .name "b"⟩ 1
    (by decide) (by decide) rfl (by decide)).1
  exact h

/-- On the hashable-key path, a mapping-context success carries no
warning. -/
theorem subscriptHashable_warn_false (r : BaseRow) (lk : LKey) (v : GetRes) (w : Bool)
    (h : r.subscriptHashable lk true = .ok (v, w)) : w = false := by
  unfold BaseRow.subscriptHashable at h
  rcases hl : r.lookupRec lk with _ | rc
  · rw [hl] at h; simp at h
  · rw [hl] at h
    dsimp only at h
    rcases hm : rc.mdindex with _ | p
    · rw [hm] at h; simp at h
    · rw [hm] at h
      dsimp only at h
      rcases hg : pyTupleGet r._data (p : Int) with e | val
      · rw [hg] at h; simp at h
      · rw [hg] at h
        simp at h
        exact h.2

/-- In mapping context the compatibility warning never fires. -/
theorem mapping_warn_false (r : BaseRow) (k : Key) (v : GetRes) (w : Bool)
    (h : r.subscriptImpl k true = .ok (v, w)) : w = false := by
  cases k with
  | slc s =>
    simp [BaseRow.subscriptImpl] at h
    exact h.2
  | idx i => exact subscriptHashable_warn_false r (.idx i) v w h
  | name s => exact subscriptHashable_warn_false r (.name s) v w h
  | col c => exact subscriptHashable_warn_false r (.col c) v w h

/-- C10: attribute access resolves the name through keyed lookup in mapping
context — when the name resolves, it returns the same value as the mapping
view's `get` with no compatibility warning; when the lookup raises
key-not-found, the condition is converted to attribute-not-found. -/
theorem getattr_via_mapping (r : BaseRow) (nm : String) :
    (∀ v w, r.subscriptImpl (.name nm) true = .ok (v, w) →
      r.getattr nm = .ok (v, w) ∧ w = false ∧
      RowMapping.getitem ⟨r⟩ (.name nm) = .ok (v, w)) ∧
    (∀ k, r.subscriptImpl (.name nm) true = .error (.keyNotFound k) →
      r.getattr nm = .error (.attributeError k)) := by
  constructor
  · intro v w h
    refine ⟨?_, mapping_warn_false r (.name nm) v w h, h⟩
    unfold BaseRow.getattr
    rw [h]
  · intro k h
    unfold BaseRow.getattr
    rw [h]

theorem getattr_via_mapping_witness :
    exRow.getattr "b" = .ok (.one (.vint 2), false) ∧
    exRow.getattr "zz" = .error (.attributeError (.name "zz")) :=
  ⟨((getattr_via_mapping exRow "b").1 (.one (.vint 2)) false (by decide)).1,
    (getattr_via_mapping exRow "zz").2 (.name "zz") (by decide)⟩

/-- Tuple indexing with an in-range nonnegative index, phrased with the
total `getD` accessor. -/
theorem pyTupleGet_nonneg (xs : List Val) (i : Int) (h0 : 0 ≤ i)
    (h1 : i < (xs.length : Int)) :
    pyTupleGet xs i = .ok (xs.getD i.toNat .vnull) := by
  have hn : ¬ (i < 0) := by omega
  have hr : 0 ≤ i ∧ i < (xs.length : Int) := ⟨h0, h1⟩
  have hlen : i.toNat < xs.length := by omega
  simp only [pyTupleGet, if_neg hn]
  rw [dif_pos hr]
  congr 1
  rw [List.getD_eq_getElem?_getD, List.getElem?_eq_getElem hlen]
  rfl

/-- Tuple indexing with an in-range negative index counts from the end. -/
theorem pyTupleGet_negIdx (xs : List Val) (i : Int)
    (h0 : -(xs.length : Int) ≤ i) (h1 : i < 0) :
    pyTupleGet xs i = .ok (xs.getD (i + xs.length).toNat .vnull) := by
  have hr : 0 ≤ i + (xs.length : Int) ∧ i + (xs.length : Int) < (xs.length : Int) := by omega
  have hlen : (i + (xs.length : Int)).toNat < xs.length := by omega
  simp only [pyTupleGet, if_pos h1]
  rw [dif_pos hr]
  congr 1
  rw [List.getD_eq_getElem?_getD, List.getElem?_eq_getElem hlen]
  rfl

/-- Tuple indexing outside `[-len, len)` raises `IndexError`. -/
theorem pyTupleGet_oob (xs : List Val) (i : Int)
    (h : i < -(xs.length : Int) ∨ (xs.length : Int) ≤ i) :
    pyTupleGet xs i = .error .indexOutOfRange := by
  by_cases hn : i < 0
  · simp only [pyTupleGet, if_pos hn]
    rw [dif_neg (by omega)]
  · simp only [pyTupleGet, if_neg hn]
    rw [dif_neg (by omega)]

/-- C9 (amended): strict-view subscription is Python tuple subscription — an
integer in `[0, len)` returns the value at that position, an integer in
`[-len, 0)` returns the value at `len + i` (negative indexing), an integer
outside `[-len, len)` fails with the IndexError-class condition, a slice
returns the selected sub-sequence as a tuple of values, and a string or
column-identity key always fails with the TypeError-class condition (it is
never resolved as a name). -/
theorem strict_getitem_tuple_semantics (r : BaseRow) (i : Int) (s : PySlice)
    (nm : String) (c : Nat) :
    (0 ≤ i → i < (r._data.length : Int) →
      Row.getitem r (.idx i) = .ok (.one (r._data.getD i.toNat .vnull))) ∧
    (-(r._data.length : Int) ≤ i → i < 0 →
      Row.getitem r (.idx i) =
        .ok (.one (r._data.getD (i + r._data.length).toNat .vnull))) ∧
    ((i < -(r._data.length : Int) ∨ (r._data.length : Int) ≤ i) →
      Row.getitem r (.idx i) = .error .indexOutOfRange) ∧
    Row.getitem r (.slc s) = .ok (.many (pySliceGet r._data s)) ∧
    Row.getitem r (.name nm) = .error .typeError ∧
    Row.getitem r (.col c) = .error .typeError := by
  refine ⟨fun h0 h1 => ?_, fun h0 h1 => ?_, fun h => ?_, rfl, rfl, rfl⟩
  · simp [Row.getitem, pyTupleGet_nonneg r._data i h0 h1, Except.map]
  · simp [Row.getitem, pyTupleGet_negIdx r._data i h0 h1, Except.map]
  · simp [Row.getitem, pyTupleGet_oob r._data i h, Except.map]

theorem strict_getitem_tuple_semantics_witness :
    Row.getitem exRow (.idx 1) = .ok (.one (exRow._data.getD (1 : Int).toNat .vnull)) ∧
    Row.getitem exRow (.idx 5) = .error .indexOutOfRange ∧
    Row.getitem exRow (.name "a") = .error .typeError :=
  ⟨(strict_getitem_tuple_semantics exRow 1 ⟨none, none⟩ "a" 0).1 (by decide) (by decide),
    (strict_getitem_tuple_semantics exRow 5 ⟨none, none⟩ "a" 0).2.2.1 (Or.inr (by decide)),
    (strict_getitem_tuple_semantics exRow 5 ⟨none, none⟩ "a" 0).2.2.2.2.1⟩

/-- C9 (counterexample): the index `-1` lies outside `[0, len)` for the row
`(1, 2, 3)`, yet strict subscription returns the last stored value instead
of failing with the IndexError-class condition. -/
theorem strict_getitem_negative_counterexample :
    Row.getitem exRow (.idx (-1)) = .ok (.one (.vint 3)) ∧
    ¬ (0 ≤ (-1 : Int)) ∧ exRow._data.length = 3 :=
  ⟨by decide, by decide, by decide⟩

/-- Scalar `>` is `<` with the operands swapped. -/
theorem pyValGt_swap (x y : Val) : pyValGt x y = pyValLt y x := by
  cases x <;> cases y <;> rfl

/-- Scalar `>=` is `<=` with the operands swapped. -/
theorem pyValGe_swap (x y : Val) : pyValGe x y = pyValLe y x := by
  cases x <;> cases y <;> rfl

/-- On distinct values, scalar `<=` and `<` agree. -/
theorem pyValLe_eq_pyValLt_of_ne (x y : Val) (h : x ≠ y) :
    pyValLe x y = pyValLt x y := by
  cases x with
  | vnull => cases y <;> rfl
  | vint m =>
    cases y with
    | vnull => rfl
    | vint n =>
      have hmn : m ≠ n := fun e => h (by rw [e])
      simp only [pyValLe, pyValLt, Option.some.injEq]
      exact decide_eq_decide.mpr (by omega)
    | vstr _ => rfl
  | vstr a =>
    cases y with
    | vnull => rfl
    | vint _ => rfl
    | vstr b =>
      have hab : a ≠ b := fun e => h (by rw [e])
      simp only [pyValLe, pyValLt, Option.some.injEq]
      refine decide_eq_decide.mpr ?_
      rw [le_iff_lt_or_eq]
      simp [hab]

/-- Tuple `==` is structural equality of the value sequences. -/
theorem pyTupleEq_iff (xs ys : List Val) : pyTupleEq xs ys = true ↔ xs = ys := by
  induction xs generalizing ys with
  | nil => cases ys <;> simp [pyTupleEq]
  | cons x xs ih =>
    cases ys with
    | nil => simp [pyTupleEq]
    | cons y ys => simp [pyTupleEq, ih]

/-- Tuple `>` is tuple `<` with the operands swapped. -/
theorem pyTupleGt_swap (xs ys : List Val) : pyTupleGt xs ys = pyTupleLt ys xs := by
  induction xs generalizing ys with
  | nil => cases ys <;> rfl
  | cons x xs ih =>
    cases ys with
    | nil => rfl
    | cons y ys =>
      simp only [pyTupleGt, pyTupleLt]
      by_cases h : x = y
      · subst h
        rw [if_pos rfl, if_pos rfl]
        exact ih ys
      · rw [if_neg h, if_neg (fun e => h e.symm), pyValGt_swap]

/-- Tuple `>=` is tuple `<=` with the operands swapped. -/
theorem pyTupleGe_swap (xs ys : List Val) : pyTupleGe xs ys = pyTupleLe ys xs := by
  induction xs generalizing ys with
  | nil => cases ys <;> rfl
  | cons x xs ih =>
    cases ys with
    | nil => rfl
    | cons y ys =>
      simp only [pyTupleGe, pyTupleLe]
      by_cases h : x = y
      · subst h
        rw [if_pos rfl, if_pos rfl]
        exact ih ys
      · rw [if_neg h, if_neg (fun e => h e.symm), pyValGe_swap]

/-- Nothing is lexicographically below the empty sequence. -/
theorem lexLt_nil_right (xs : List Val) : ¬ lexLt xs [] := by
  rintro (⟨p, x, y, xs2, ys2, hx, hy, hne, hlt⟩ | ⟨hlen, htake⟩)
  · cases p <;> simp at hy
  · simp at hlen

/-- The empty sequence is lexicographically below any nonempty one (the
strict-prefix rule). -/
theorem lexLt_nil_cons (y : Val) (ys : List Val) : lexLt [] (y :: ys) :=
  Or.inr ⟨by simp, by simp⟩

/-- Peeling one equal head preserves the lexicographic order. -/
theorem lexLt_cons (a : Val) (xs ys : List Val) :
    lexLt (a :: xs) (a :: ys) ↔ lexLt xs ys := by
  constructor
  · rintro (⟨p, x, y, xs2, ys2, hx, hy, hne, hlt⟩ | ⟨hlen, htake⟩)
    · cases p with
      | nil =>
        simp only [List.nil_append, List.cons.injEq] at hx hy
        exact absurd (hx.1.symm.trans hy.1) hne
      | cons b p2 =>
        simp only [List.cons_append, List.cons.injEq] at hx hy
        exact Or.inl ⟨p2, x, y, xs2, ys2, hx.2, hy.2, hne, hlt⟩
    · refine Or.inr ⟨by simpa using hlen, ?_⟩
      simp only [List.length_cons, List.take_succ_cons, List.cons.injEq] at htake
      exact htake.2
  · rintro (⟨p, x, y, xs2, ys2, hx, hy, hne, hlt⟩ | ⟨hlen, htake⟩)
    · exact Or.inl ⟨a :: p, x, y, xs2, ys2, by simp [hx], by simp [hy], hne, hlt⟩
    · exact Or.inr ⟨by simpa using Nat.succ_lt_succ hlen,
        by simp [List.take_succ_cons, htake]⟩

/-- With distinct heads, the lexicographic order is decided right at the
first position. -/
theorem lexLt_cons_ne (x y : Val) (xs ys : List Val) (hne : x ≠ y) :
    lexLt (x :: xs) (y :: ys) ↔ pyValLt x y = some true := by
  constructor
  · rintro (⟨p, x2, y2, xs2, ys2, hx, hy, hne2, hlt⟩ | ⟨hlen, htake⟩)
    · cases p with
      | nil =>
        simp only [List.nil_append, List.cons.injEq] at hx hy
        rw [hx.1, hy.1]
        exact hlt
      | cons b p2 =>
        simp only [List.cons_append, List.cons.injEq] at hx hy
        exact absurd (hx.1.trans hy.1.symm) hne
    · simp only [List.length_cons, List.take_succ_cons, List.cons.injEq] at htake
      exact absurd htake.1.symm hne
  · intro h
    exact Or.inl ⟨[], x, y, xs, ys, rfl, rfl, hne, h⟩

/-- Tuple `<` holds exactly on the spec's lexicographic order: the first
differing position decides, and a strict prefix is less. -/
theorem pyTupleLt_iff (xs ys : List Val) :
    pyTupleLt xs ys = some true ↔ lexLt xs ys := by
  induction xs generalizing ys with
  | nil =>
    cases ys with
    | nil => exact iff_of_false (by simp [pyTupleLt]) (lexLt_nil_right [])
    | cons y ys => exact iff_of_true rfl (lexLt_nil_cons y ys)
  | cons x xs ih =>
    cases ys with
    | nil => exact iff_of_false (by simp [pyTupleLt]) (lexLt_nil_right (x :: xs))
    | cons y ys =>
      by_cases h : x = y
      · subst h
        simp only [pyTupleLt, if_pos rfl]
        rw [lexLt_cons]
        exact ih ys
      · simp only [pyTupleLt, if_neg h]
        exact (lexLt_cons_ne x y xs ys h).symm

/-- Tuple `<=` holds exactly when the spec's lexicographic order holds or
the sequences are equal. -/
theorem pyTupleLe_iff (xs ys : List Val) :
    pyTupleLe xs ys = some true ↔ (lexLt xs ys ∨ xs = ys) := by
  induction xs generalizing ys with
  | nil =>
    cases ys with
    | nil => exact iff_of_true rfl (Or.inr rfl)
    | cons y ys => exact iff_of_true rfl (Or.inl (lexLt_nil_cons y ys))
  | cons x xs ih =>
    cases ys with
    | nil =>
      refine iff_of_false (by simp [pyTupleLe]) ?_
      rintro (h | h)
      · exact lexLt_nil_right _ h
      · simp at h
    | cons y ys =>
      by_cases h : x = y
      · subst h
        simp only [pyTupleLe, eq_self_iff_true, if_true]
        rw [ih ys, lexLt_cons]
        simp
      · simp only [pyTupleLe, if_neg h]
        rw [pyValLe_eq_pyValLt_of_ne x y h]
        rw [← lexLt_cons_ne x y xs ys h]
        simp [h]

/-- C5: row equality and ordering (`==`, `!=`, `<`, `<=`, `>`, `>=`) against
another row or against an ordered sequence follow standard lexicographic
tuple comparison of the value sequences — the first differing position
decides, and a strict prefix is less — and rows with equal value sequences
hash equally. -/
theorem row_compare_lexicographic (r : BaseRow) (o : BaseRow ⊕ List Val) :
    (Row.opEq r o = true ↔ r._data = tupleOfOther o) ∧
    (Row.opNe r o = true ↔ r._data ≠ tupleOfOther o) ∧
    (Row.opLt r o = some true ↔ lexLt r._data (tupleOfOther o)) ∧
    (Row.opLe r o = some true ↔ (lexLt r._data (tupleOfOther o) ∨ r._data = tupleOfOther o)) ∧
    (Row.opGt r o = some true ↔ lexLt (tupleOfOther o) r._data) ∧
    (Row.opGe r o = some true ↔ (lexLt (tupleOfOther o) r._data ∨ tupleOfOther o = r._data)) ∧
    (∀ r2 : BaseRow, r._data = r2._data → r.hashRow = r2.hashRow) := by
  refine ⟨?_, ?_, ?_, ?_, ?_, ?_, ?_⟩
  · exact pyTupleEq_iff r._data (tupleOfOther o)
  · rw [show Row.opNe r o = !pyTupleEq r._data (tupleOfOther o) from rfl]
    rcases hb : pyTupleEq r._data (tupleOfOther o) with _ | _
    · simpa using fun he => by rw [← pyTupleEq_iff] at he; rw [he] at hb; cases hb
    · simpa using (pyTupleEq_iff r._data (tupleOfOther o)).mp hb
  · exact pyTupleLt_iff r._data (tupleOfOther o)
  · exact pyTupleLe_iff r._data (tupleOfOther o)
  · rw [show Row.opGt r o = pyTupleGt r._data (tupleOfOther o) from rfl, pyTupleGt_swap]
    exact pyTupleLt_iff (tupleOfOther o) r._data
  · rw [show Row.opGe r o = pyTupleGe r._data (tupleOfOther o) from rfl, pyTupleGe_swap]
    exact pyTupleLe_iff (tupleOfOther o) r._data
  · intro r2 h
    unfold BaseRow.hashRow
    rw [h]

theorem row_compare_lexicographic_witness :
    Row.opLt exRow12 (Sum.inr [Val.vint 1, Val.vint 3]) = some true ∧
    Row.opEq exRow (Sum.inl exRowU) = true ∧
    exRowU.hashRow = exRow.hashRow :=
  ⟨(row_compare_lexicographic exRow12 (Sum.inr [Val.vint 1, Val.vint 3])).2.2.1.mpr
      (Or.inl ⟨[Val.vint 1], Val.vint 2, Val.vint 3, [], [], rfl, rfl, by decide, by decide⟩),
    (row_compare_lexicographic exRow (Sum.inl exRowU)).1.mpr (by decide),
    (row_compare_lexicographic exRowU (Sum.inl exRow)).2.2.2.2.2.2 exRow (by decide)⟩

end SqlRow
